import Mathlib

/-!
Verification of the AiStoryBuilder backend (src-tauri/src/main.rs).

The development shallowly embeds the Rust source: the project record types,
the in-memory project store (a `HashMap<String, Project>` guarded by one
mutex, modelled as an association list with the same lookup/insert/remove
semantics), the Tauri command handlers, and the local-LLM proxy.  Effects
are made explicit: the UUID generator and the clock become parameters
(`project_id`, `now`), the network becomes an `HttpOutcome` value, and each
state-touching command returns its result together with the new store.
-/

/-- Character record, translated field for field from `struct Character`. -/
structure Character where
  id : String
  name : String
  age : Option Int
  description : String
  role : String
  personality : String
  background : String
deriving DecidableEq

/-- Act record, translated from `struct Act`. -/
structure Act where
  id : String
  title : String
  description : String
  order : Int
deriving DecidableEq

/-- Plot record, translated from `struct Plot`. -/
structure Plot where
  id : String
  title : String
  genre : String
  theme : String
  setting : String
  conflict : String
  resolution : String
  acts : List Act
deriving DecidableEq

/-- Chapter record, translated from `struct Chapter`. -/
structure Chapter where
  id : String
  title : String
  content : String
  order : Int
  word_count : Int
deriving DecidableEq

/-- Project record, translated from `struct Project`.  The two timestamps
are RFC3339 strings in the source (`chrono::Utc::now().to_rfc3339()`); they
stay strings here, and ordering claims use the lexicographic order on
strings, which agrees with chronological order for this fixed UTC format. -/
structure Project where
  id : String
  title : String
  description : Option String
  characters : List Character
  plot : Option Plot
  synopsis : Option String
  chapters : List Chapter
  created_at : String
  updated_at : String
deriving DecidableEq

/-- AI configuration, translated from `struct AIConfig`.  `temperature` is
an `f32` in the source; it is carried opaquely (no arithmetic is ever done
on it). -/
structure AIConfig where
  provider : String
  api_key : Option String
  model : String
  temperature : Float
  max_tokens : Int

/-- Error taxonomy, translated from `enum AppError`. -/
inductive AppError where
  | ProjectNotFound (id : String)
  | AIConfigError (msg : String)
  | FileError (msg : String)
  | DatabaseError (msg : String)
deriving DecidableEq

/-- The project store: the contents of the `HashMap<String, Project>` held
in `AppState.projects`, modelled as an association list with the map
semantics of the hash map (lookup finds the unique binding, insert
replaces, remove erases). -/
abbrev Store := List (String × Project)

/-- Lookup of a key, the model of `HashMap::get`. -/
def Store.get? (k : String) : Store → Option Project
  | [] => none
  | (k', v) :: rest => if k' = k then some v else Store.get? k rest

/-- Key removal, the model of `HashMap::remove`'s effect on the map. -/
def Store.erase (k : String) : Store → Store
  | [] => []
  | (k', v) :: rest => if k' = k then Store.erase k rest else (k', v) :: Store.erase k rest

/-- Insertion, the model of `HashMap::insert`: the new binding replaces any
previous binding of the key. -/
def Store.insert (k : String) (v : Project) (s : Store) : Store :=
  (k, v) :: Store.erase k s

/-- Membership test, the model of `HashMap::contains_key`. -/
def Store.contains (k : String) (s : Store) : Bool :=
  (Store.get? k s).isSome

/-- All stored values, the model of `HashMap::values`. -/
def Store.values (s : Store) : List Project :=
  s.map (fun kv => kv.2)

/-- Command `create_project`: the fresh UUID and the clock reading are the
explicit parameters `project_id` and `now`. -/
def create_project (title : String) (description : Option String)
    (project_id now : String) (projects : Store) :
    Except AppError Project × Store :=
  let project : Project :=
    { id := project_id
      title := title
      description := description
      characters := []
      plot := none
      synopsis := none
      chapters := []
      created_at := now
      updated_at := now }
  (.ok project, Store.insert project_id project projects)

/-- Command `get_projects`. -/
def get_projects (projects : Store) : Except AppError (List Project) :=
  .ok (Store.values projects)

/-- Command `get_project`. -/
def get_project (project_id : String) (projects : Store) : Except AppError Project :=
  match Store.get? project_id projects with
  | some p => .ok p
  | none => .error (.ProjectNotFound project_id)

/-- Command `update_project`: the clock reading at the call is the explicit
parameter `now`; the caller-supplied record is stored wholesale with only
`updated_at` overwritten. -/
def update_project (project_id : String) (project : Project) (now : String)
    (projects : Store) : Except AppError Project × Store :=
  if !Store.contains project_id projects then
    (.error (.ProjectNotFound project_id), projects)
  else
    let updated_project := { project with updated_at := now }
    (.ok updated_project, Store.insert project_id updated_project projects)

/-- Command `delete_project`: `HashMap::remove` both erases and reports the
removed value, so the model erases first and inspects what was there. -/
def delete_project (project_id : String) (projects : Store) :
    Except AppError Unit × Store :=
  let removed := Store.get? project_id projects
  let projects' := Store.erase project_id projects
  if removed.isNone then (.error (.ProjectNotFound project_id), projects')
  else (.ok (), projects')

/-- Command `generate_ai_content`: pure dispatch on `config.provider`
(a Rust `match` on the string). -/
def generate_ai_content (prompt : String) (config : AIConfig) :
    Except AppError String :=
  if config.provider = "openai" then .ok ("AI生成コンテンツ: " ++ prompt)
  else if config.provider = "claude" then .ok ("AI生成コンテンツ: " ++ prompt)
  else if config.provider = "local" then .ok ("ローカルAI生成コンテンツ: " ++ prompt)
  else .error (.AIConfigError "サポートされていないAIプロバイダー")

/-- Concatenation of a list of strings, the model of the `push_str`
accumulation loop in `export_project`. -/
def concatStrings : List String → String
  | [] => ""
  | s :: rest => s ++ concatStrings rest

/-- The text rendered for one chapter in the `txt` export:
`format!("\n## {}\n", chapter.title)` followed by the raw content. -/
def chapterTxt (chapter : Chapter) : String :=
  "\n## " ++ chapter.title ++ "\n" ++ chapter.content

/-- The whole `txt` export body: title line, optional description line,
then every chapter in storage order. -/
def projectTxt (project : Project) : String :=
  "タイトル: " ++ project.title ++ "\n" ++
  (match project.description with
   | some desc => "説明: " ++ desc ++ "\n"
   | none => "") ++
  concatStrings (project.chapters.map chapterTxt)

/-- JSON values, the value tree that serde_json serializes a `Project`
into (booleans and floats never occur in a serialized `Project`, so the
model omits them). -/
inductive Json where
  | null
  | num (n : Int)
  | str (s : String)
  | arr (elems : List Json)
  | obj (fields : List (String × Json))

/-- Serialization of `Option<String>`: serde maps `None` to `null`. -/
def optStrToJson : Option String → Json
  | none => .null
  | some s => .str s

/-- Serialization of `Option<i32>`. -/
def optIntToJson : Option Int → Json
  | none => .null
  | some n => .num n

/-- Serialization of a `Character`, fields in declaration order as the
serde derive emits them. -/
def Character.toJson (c : Character) : Json :=
  .obj [("id", .str c.id), ("name", .str c.name), ("age", optIntToJson c.age),
        ("description", .str c.description), ("role", .str c.role),
        ("personality", .str c.personality), ("background", .str c.background)]

/-- Serialization of an `Act`. -/
def Act.toJson (a : Act) : Json :=
  .obj [("id", .str a.id), ("title", .str a.title),
        ("description", .str a.description), ("order", .num a.order)]

/-- Serialization of a `Plot`. -/
def Plot.toJson (p : Plot) : Json :=
  .obj [("id", .str p.id), ("title", .str p.title), ("genre", .str p.genre),
        ("theme", .str p.theme), ("setting", .str p.setting),
        ("conflict", .str p.conflict), ("resolution", .str p.resolution),
        ("acts", .arr (p.acts.map Act.toJson))]

/-- Serialization of `Option<Plot>`. -/
def optPlotToJson : Option Plot → Json
  | none => .null
  | some p => Plot.toJson p

/-- Serialization of a `Chapter`. -/
def Chapter.toJson (c : Chapter) : Json :=
  .obj [("id", .str c.id), ("title", .str c.title), ("content", .str c.content),
        ("order", .num c.order), ("word_count", .num c.word_count)]

/-- Serialization of a `Project`, the value tree of
`serde_json::to_string_pretty(project)`. -/
def Project.toJson (p : Project) : Json :=
  .obj [("id", .str p.id), ("title", .str p.title),
        ("description", optStrToJson p.description),
        ("characters", .arr (p.characters.map Character.toJson)),
        ("plot", optPlotToJson p.plot),
        ("synopsis", optStrToJson p.synopsis),
        ("chapters", .arr (p.chapters.map Chapter.toJson)),
        ("created_at", .str p.created_at), ("updated_at", .str p.updated_at)]

/-- Field access during deserialization: serde's derived `Deserialize`
matches object fields by name. -/
def Json.getField (j : Json) (name : String) : Except String Json :=
  match j with
  | .obj fields =>
    match fields.lookup name with
    | some v => .ok v
    | none => .error ("missing field " ++ name)
  | _ => .error "expected object"

/-- Deserialization of a string value. -/
def Json.asStr : Json → Except String String
  | .str s => .ok s
  | _ => .error "expected string"

/-- Deserialization of an `i32` value. -/
def Json.asInt : Json → Except String Int
  | .num n => .ok n
  | _ => .error "expected integer"

/-- Deserialization of an `Option<String>` value. -/
def Json.asOptStr : Json → Except String (Option String)
  | .null => .ok none
  | .str s => .ok (some s)
  | _ => .error "expected string or null"

/-- Deserialization of an `Option<i32>` value. -/
def Json.asOptInt : Json → Except String (Option Int)
  | .null => .ok none
  | .num n => .ok (some n)
  | _ => .error "expected integer or null"

/-- Deserialization of an array value. -/
def Json.asArr : Json → Except String (List Json)
  | .arr elems => .ok elems
  | _ => .error "expected array"

/-- Elementwise deserialization of a sequence. -/
def decodeList (f : Json → Except String α) : List Json → Except String (List α)
  | [] => .ok []
  | x :: xs => do
    let a ← f x
    let rest ← decodeList f xs
    .ok (a :: rest)

/-- Deserialization of a `Character`. -/
def Character.fromJson? (j : Json) : Except String Character := do
  let id ← (← j.getField "id").asStr
  let name ← (← j.getField "name").asStr
  let age ← (← j.getField "age").asOptInt
  let description ← (← j.getField "description").asStr
  let role ← (← j.getField "role").asStr
  let personality ← (← j.getField "personality").asStr
  let background ← (← j.getField "background").asStr
  .ok { id := id, name := name, age := age, description := description,
        role := role, personality := personality, background := background }

/-- Deserialization of an `Act`. -/
def Act.fromJson? (j : Json) : Except String Act := do
  let id ← (← j.getField "id").asStr
  let title ← (← j.getField "title").asStr
  let description ← (← j.getField "description").asStr
  let order ← (← j.getField "order").asInt
  .ok { id := id, title := title, description := description, order := order }

/-- Deserialization of a `Plot`. -/
def Plot.fromJson? (j : Json) : Except String Plot := do
  let id ← (← j.getField "id").asStr
  let title ← (← j.getField "title").asStr
  let genre ← (← j.getField "genre").asStr
  let theme ← (← j.getField "theme").asStr
  let setting ← (← j.getField "setting").asStr
  let conflict ← (← j.getField "conflict").asStr
  let resolution ← (← j.getField "resolution").asStr
  let acts ← decodeList Act.fromJson? (← (← j.getField "acts").asArr)
  .ok { id := id, title := title, genre := genre, theme := theme,
        setting := setting, conflict := conflict, resolution := resolution,
        acts := acts }

/-- Deserialization of an `Option<Plot>`. -/
def optPlotFromJson? (j : Json) : Except String (Option Plot) :=
  match j with
  | .null => .ok none
  | _ => do
    let p ← Plot.fromJson? j
    .ok (some p)

/-- Deserialization of a `Chapter`. -/
def Chapter.fromJson? (j : Json) : Except String Chapter := do
  let id ← (← j.getField "id").asStr
  let title ← (← j.getField "title").asStr
  let content ← (← j.getField "content").asStr
  let order ← (← j.getField "order").asInt
  let word_count ← (← j.getField "word_count").asInt
  .ok { id := id, title := title, content := content, order := order,
        word_count := word_count }

/-- Deserialization of a `Project`, the model of
`serde_json::from_str::<Project>` applied to an already-parsed value. -/
def Project.fromJson? (j : Json) : Except String Project := do
  let id ← (← j.getField "id").asStr
  let title ← (← j.getField "title").asStr
  let description ← (← j.getField "description").asOptStr
  let characters ← decodeList Character.fromJson? (← (← j.getField "characters").asArr)
  let plot ← optPlotFromJson? (← j.getField "plot")
  let synopsis ← (← j.getField "synopsis").asOptStr
  let chapters ← decodeList Chapter.fromJson? (← (← j.getField "chapters").asArr)
  let created_at ← (← j.getField "created_at").asStr
  let updated_at ← (← j.getField "updated_at").asStr
  .ok { id := id, title := title, description := description,
        characters := characters, plot := plot, synopsis := synopsis,
        chapters := chapters, created_at := created_at, updated_at := updated_at }

/-- Hexadecimal digit character (lower case, as serde_json emits). -/
def hexDigitOf (n : Nat) : Char :=
  Char.ofNat (if n < 10 then 48 + n else 87 + n)

/-- Escaping of one character inside a JSON string literal: the quote and
the backslash get a backslash escape, control characters below 0x20 get a
`\u00XX` escape, every other character is emitted verbatim. -/
def escapeChar (c : Char) : List Char :=
  if c = '"' then ['\\', '"']
  else if c = '\\' then ['\\', '\\']
  else if c.toNat < 32 then
    ['\\', 'u', '0', '0', hexDigitOf (c.toNat / 16), hexDigitOf (c.toNat % 16)]
  else [c]

/-- Escaping of a whole string body. -/
def escapeList : List Char → List Char
  | [] => []
  | c :: rest => escapeChar c ++ escapeList rest

/-- Decimal digit character. -/
def digitCharOf (d : Nat) : Char :=
  Char.ofNat (48 + d)

/-- Decimal rendering of a natural number. -/
def natChars (n : Nat) : List Char :=
  if n = 0 then ['0'] else ((Nat.digits 10 n).map digitCharOf).reverse

/-- Decimal rendering of an `i32` value. -/
def intChars (n : Int) : List Char :=
  if n < 0 then '-' :: natChars n.natAbs else natChars n.toNat

/-- Rendering of a JSON string literal. -/
def strLitChars (s : String) : List Char :=
  '"' :: escapeList s.data ++ ['"']

mutual

/-- Character-level rendering of a JSON value, the model of serde_json's
writer (compact form: the whitespace that `to_string_pretty` adds is
irrelevant to every claim and is omitted). -/
def renderJsonL : Json → List Char
  | .null => ['n', 'u', 'l', 'l']
  | .num n => intChars n
  | .str s => strLitChars s
  | .arr elems => '[' :: renderElems elems ++ [']']
  | .obj fields => '\x7b' :: renderFields fields ++ ['\x7d']

/-- Rendering of comma-separated array elements. -/
def renderElems : List Json → List Char
  | [] => []
  | [x] => renderJsonL x
  | x :: xs => renderJsonL x ++ ',' :: renderElems xs

/-- Rendering of comma-separated object fields. -/
def renderFields : List (String × Json) → List Char
  | [] => []
  | [(k, v)] => strLitChars k ++ ':' :: renderJsonL v
  | (k, v) :: fs => strLitChars k ++ ':' :: renderJsonL v ++ ',' :: renderFields fs

end

/-- String-level rendering of a JSON value. -/
def renderJson (j : Json) : String :=
  ⟨renderJsonL j⟩

/-- Command `export_project`: render failure of serde_json cannot occur on
a `Project` tree, so the `json` arm always succeeds. -/
def export_project (project_id format : String) (projects : Store) :
    Except AppError String :=
  match Store.get? project_id projects with
  | none => .error (.ProjectNotFound project_id)
  | some project =>
    if format = "txt" then .ok (projectTxt project)
    else if format = "json" then .ok (renderJson (Project.toJson project))
    else .error (.FileError "サポートされていないエクスポート形式")

/-- Transport-level failures of `reqwest::send`, distinguished exactly as
the source distinguishes them (`is_timeout`, `is_connect`, anything else). -/
inductive SendError where
  | timeout
  | connect
  | other (msg : String)

/-- Outcome of the outbound HTTP interaction performed by the proxy: the
client builder may fail, the send may fail, or a response arrives whose
body read yields text or fails. -/
inductive HttpOutcome where
  | clientError (msg : String)
  | sendFailure (e : SendError)
  | response (status : Nat) (bodyRead : Except String String)

/-- Command `proxy_local_llm_request`: error normalization of the proxy.
The network interaction is abstracted into the `outcome` parameter; the
endpoint, body and headers are carried but — as in the source — never
influence which arm runs. -/
def proxy_local_llm_request (endpoint body : String)
    (headers : List (String × String)) (outcome : HttpOutcome) :
    Except String String :=
  match outcome with
  | .clientError e => .error ("クライアント作成エラー: " ++ e)
  | .sendFailure .timeout =>
    .error "ローカルLLMサーバーへの接続がタイムアウトしました。サーバーが起動しているか確認してください。"
  | .sendFailure .connect =>
    .error "ローカルLLMサーバーに接続できません。サーバーが起動しているか、エンドポイントが正しいか確認してください。"
  | .sendFailure (.other e) => .error ("リクエスト送信エラー: " ++ e)
  | .response _ (.error e) => .error ("レスポンス読み取りエラー: " ++ e)
  | .response _ (.ok text) => .ok text

/-- Application state, translated from `struct AppState` (both mutex-held
fields, without the mutexes: the embedding is sequential). -/
structure AppState where
  projects : Store
  current_project : Option String
deriving DecidableEq

/-- The `AppState::default()` used by `.manage(AppState::default())`:
empty map, no current project. -/
def AppState.default : AppState :=
  { projects := [], current_project := none }

/-- One invocation of one of the eight registered commands, with every
effect the command consumes (UUID, clock, network outcome) recorded as an
argument. -/
inductive Command where
  | create (title : String) (description : Option String) (project_id now : String)
  | listProjects
  | get (project_id : String)
  | update (project_id : String) (project : Project) (now : String)
  | delete (project_id : String)
  | generate (prompt : String) (config : AIConfig)
  | exportCmd (project_id format : String)
  | proxy (endpoint body : String) (headers : List (String × String)) (outcome : HttpOutcome)

/-- State transition of one command: each handler is invoked on the state
it locks; handlers without a state effect leave the state untouched, as in
the source, where they either only read `state.projects` or never take the
state argument at all. -/
def execCommand (c : Command) (st : AppState) : AppState :=
  match c with
  | .create title description project_id now =>
    { st with projects := (create_project title description project_id now st.projects).2 }
  | .listProjects => st
  | .get _ => st
  | .update project_id project now =>
    { st with projects := (update_project project_id project now st.projects).2 }
  | .delete project_id =>
    { st with projects := (delete_project project_id st.projects).2 }
  | .generate _ _ => st
  | .exportCmd _ _ => st
  | .proxy _ _ _ _ => st

/-- State after a whole sequence of command invocations. -/
def execList (cs : List Command) (st : AppState) : AppState :=
  cs.foldl (fun s c => execCommand c s) st

/-- Value of a hexadecimal digit character. -/
def hexVal (c : Char) : Option Nat :=
  if 48 ≤ c.toNat ∧ c.toNat ≤ 57 then some (c.toNat - 48)
  else if 97 ≤ c.toNat ∧ c.toNat ≤ 102 then some (c.toNat - 87)
  else none

/-- Parser for the body of a JSON string literal, consuming up to and
including the closing quote; `acc` holds the characters read so far in
reverse. -/
def parseStrBody : List Char → List Char → Option (String × List Char)
  | [], _ => none
  | c :: rest, acc =>
    if c = '"' then some (⟨acc.reverse⟩, rest)
    else if c = '\\' then
      match rest with
      | [] => none
      | e :: rest2 =>
        if e = '"' then parseStrBody rest2 ('"' :: acc)
        else if e = '\\' then parseStrBody rest2 ('\\' :: acc)
        else if e = 'u' then
          match rest2 with
          | h1 :: h2 :: h3 :: h4 :: rest3 =>
            match hexVal h1, hexVal h2, hexVal h3, hexVal h4 with
            | some a, some b, some c3, some d =>
              parseStrBody rest3 (Char.ofNat (4096 * a + 256 * b + 16 * c3 + d) :: acc)
            | _, _, _, _ => none
          | _ => none
        else none
    else parseStrBody rest (c :: acc)

/-- Numeric value of a list of decimal digit characters. -/
def digitsVal (ds : List Char) : Nat :=
  ds.foldl (fun a c => 10 * a + (c.toNat - 48)) 0

/-- Parser for an unsigned decimal number: takes the maximal leading run
of digits. -/
def parseNat (cs : List Char) : Option (Nat × List Char) :=
  let ds := cs.takeWhile Char.isDigit
  if ds.isEmpty then none else some (digitsVal ds, cs.dropWhile Char.isDigit)

/-- One dispatch step of the JSON value parser, parameterized by the
parsers for the elements of a non-empty array and the fields of a
non-empty object. -/
def parseValAux (pE : List Char → Option (List Json × List Char))
    (pF : List Char → Option (List (String × Json) × List Char)) :
    List Char → Option (Json × List Char)
  | [] => none
  | c :: rest =>
    if c = 'n' then
      match rest with
      | 'u' :: 'l' :: 'l' :: rest2 => some (.null, rest2)
      | _ => none
    else if c = '"' then
      match parseStrBody rest [] with
      | some (s, rest2) => some (.str s, rest2)
      | none => none
    else if c = '[' then
      match rest with
      | [] => none
      | r :: rest2 =>
        if r = ']' then some (.arr [], rest2)
        else
          match pE (r :: rest2) with
          | some (elems, rest3) => some (.arr elems, rest3)
          | none => none
    else if c = '\x7b' then
      match rest with
      | [] => none
      | r :: rest2 =>
        if r = '\x7d' then some (.obj [], rest2)
        else
          match pF (r :: rest2) with
          | some (fields, rest3) => some (.obj fields, rest3)
          | none => none
    else if c = '-' then
      match parseNat rest with
      | some (n, rest2) => some (.num (-(n : Int)), rest2)
      | none => none
    else if c.isDigit then
      match parseNat (c :: rest) with
      | some (n, rest2) => some (.num (n : Int), rest2)
      | none => none
    else none

/-- One step of the parser for the elements of a non-empty array,
parameterized by the value parser and the parser for the remaining
elements; consumes the closing bracket. -/
def parseElemsAux (pV : List Char → Option (Json × List Char))
    (pE : List Char → Option (List Json × List Char)) (cs : List Char) :
    Option (List Json × List Char) :=
  match pV cs with
  | some (v, rest) =>
    match rest with
    | ',' :: rest2 =>
      match pE rest2 with
      | some (vs, rest3) => some (v :: vs, rest3)
      | none => none
    | ']' :: rest2 => some ([v], rest2)
    | _ => none
  | none => none

/-- One step of the parser for the fields of a non-empty object,
parameterized by the value parser and the parser for the remaining
fields; consumes the closing brace. -/
def parseFieldsAux (pV : List Char → Option (Json × List Char))
    (pF : List Char → Option (List (String × Json) × List Char)) (cs : List Char) :
    Option (List (String × Json) × List Char) :=
  match cs with
  | '"' :: cs2 =>
    match parseStrBody cs2 [] with
    | some (k, ':' :: cs3) =>
      match pV cs3 with
      | some (v, rest) =>
        match rest with
        | ',' :: rest2 =>
          match pF rest2 with
          | some (fs, rest3) => some ((k, v) :: fs, rest3)
          | none => none
        | '\x7d' :: rest2 => some ([(k, v)], rest2)
        | _ => none
      | none => none
    | _ => none
  | _ => none

mutual

/-- Fuelled parser for one JSON value.  The fuel only bounds the nesting
depth the parser will enter; any fuel at least the size of the value
suffices. -/
def parseJsonF : Nat → List Char → Option (Json × List Char)
  | 0, _ => none
  | fuel + 1, cs => parseValAux (parseElemsF fuel) (parseFieldsF fuel) cs

/-- Fuelled parser for the elements of a non-empty array. -/
def parseElemsF : Nat → List Char → Option (List Json × List Char)
  | 0, _ => none
  | fuel + 1, cs => parseElemsAux (parseJsonF fuel) (parseElemsF fuel) cs

/-- Fuelled parser for the fields of a non-empty object. -/
def parseFieldsF : Nat → List Char → Option (List (String × Json) × List Char)
  | 0, _ => none
  | fuel + 1, cs => parseFieldsAux (parseJsonF fuel) (parseFieldsF fuel) cs

end

/-- Parser for a complete JSON document: the whole input must be one
value.  The fuel `length + 1` always suffices for a rendered value, since
rendering a value of size `s` produces at least `s` characters. -/
def parseJson (s : String) : Except String Json :=
  match parseJsonF (s.length + 1) s.data with
  | some (v, []) => .ok v
  | some (_, _ :: _) => .error "trailing characters"
  | none => .error "invalid JSON"

/-- The full deserialization pipeline of `serde_json::from_str::<Project>`:
parse the text, then decode the value tree. -/
def parseProjectString (s : String) : Except String Project :=
  match parseJson s with
  | .ok v => Project.fromJson? v
  | .error e => .error e

/-- Substring containment: `sub` occurs contiguously inside `hay`. -/
def ContainsStr (hay sub : String) : Prop :=
  List.IsInfix sub.data hay.data

/-- Chronological order of timestamps: the RFC3339 UTC strings the store
writes compare chronologically exactly as their character sequences compare
lexicographically. -/
def timeLe (a b : String) : Prop :=
  a.data ≤ b.data

instance (a b : String) : Decidable (timeLe a b) :=
  inferInstanceAs (Decidable (a.data ≤ b.data))

/-- Every stored record's identifier field equals the key it is stored
under (the value the identifier was assigned at creation). -/
def WellKeyed (s : Store) : Prop :=
  ∀ k p, Store.get? k s = some p → p.id = k

/-- An update invocation is identifier-consistent when the caller-supplied
record carries the identifier it is stored under; every other command is
unconstrained. -/
def Command.idConsistent : Command → Prop
  | .update project_id project _ => project.id = project_id
  | _ => True

/-- The remainder after a rendered number may not begin with a digit
(inside a document it begins with a separator or is empty). -/
def numBoundary : List Char → Prop
  | [] => True
  | c :: _ => c.isDigit = false

mutual

/-- Fuel needed to parse a rendered JSON value. -/
def sizeJ : Json → Nat
  | .null => 1
  | .num _ => 1
  | .str _ => 1
  | .arr elems => 1 + sizeE elems
  | .obj fields => 1 + sizeF fields

/-- Fuel needed to parse rendered array elements. -/
def sizeE : List Json → Nat
  | [] => 0
  | x :: xs => 1 + sizeJ x + sizeE xs

/-- Fuel needed to parse rendered object fields. -/
def sizeF : List (String × Json) → Nat
  | [] => 0
  | f :: fs => 1 + sizeJ f.2 + sizeF fs

end

/-- Sample chapter used by concrete witnesses. -/
def sampleChapterA : Chapter :=
  { id := "ch1", title := "第一章", content := "It was a dark night.", order := 1,
    word_count := 5 }

/-- Sample project stored under key `"a"`, used by concrete witnesses. -/
def sampleProjectA : Project :=
  { id := "a", title := "alpha", description := some "a story",
    characters := [], plot := none, synopsis := none,
    chapters := [sampleChapterA],
    created_at := "2024-01-01T00:00:00+00:00",
    updated_at := "2024-01-01T00:00:00+00:00" }

/-- Sample caller-supplied record whose identifier field is `"b"`. -/
def sampleProjectB : Project :=
  { id := "b", title := "beta", description := none,
    characters := [], plot := none, synopsis := none, chapters := [],
    created_at := "2024-01-01T00:00:00+00:00",
    updated_at := "2024-01-01T00:00:00+00:00" }

/-- Sample one-entry store used by concrete witnesses. -/
def sampleStore : Store :=
  [("a", sampleProjectA)]

theorem Store.get?_erase (k k' : String) (s : Store) :
    Store.get? k (Store.erase k' s) = if k' = k then none else Store.get? k s := by
  induction s with
  | nil => simp [Store.erase, Store.get?]
  | cons kv rest ih =>
    obtain ⟨a, v⟩ := kv
    simp only [Store.erase, Store.get?]
    by_cases h1 : a = k' <;> by_cases h2 : k' = k <;>
      simp_all [Store.get?]

theorem Store.get?_insert (k k' : String) (v : Project) (s : Store) :
    Store.get? k (Store.insert k' v s) = if k' = k then some v else Store.get? k s := by
  simp only [Store.insert, Store.get?, Store.get?_erase]
  by_cases h : k' = k <;> simp [h]

theorem Store.erase_of_get?_none (k : String) (s : Store)
    (h : Store.get? k s = none) : Store.erase k s = s := by
  induction s with
  | nil => rfl
  | cons kv rest ih =>
    obtain ⟨a, v⟩ := kv
    simp only [Store.get?] at h
    by_cases h1 : a = k
    · simp [h1] at h
    · simp only [Store.erase, h1, if_false]
      simp only [h1, if_false] at h
      rw [ih h]

/-- C1: for any identifier absent from the store, `get_project`,
`update_project`, `delete_project` and `export_project` each fail with
`ProjectNotFound` carrying exactly that identifier, and the store is left
unchanged. -/
theorem not_found_closure (project_id now fmt : String) (R : Project)
    (projects : Store) (h : Store.get? project_id projects = none) :
    get_project project_id projects = .error (.ProjectNotFound project_id) ∧
    update_project project_id R now projects
      = (.error (.ProjectNotFound project_id), projects) ∧
    delete_project project_id projects
      = (.error (.ProjectNotFound project_id), projects) ∧
    export_project project_id fmt projects
      = .error (.ProjectNotFound project_id) := by
  refine ⟨?_, ?_, ?_, ?_⟩
  · simp [get_project, h]
  · simp [update_project, Store.contains, h]
  · simp [delete_project, h, Store.erase_of_get?_none]
  · simp [export_project, h]

theorem not_found_closure_witness :
    Store.get? "z" sampleStore = none ∧
    delete_project "z" sampleStore
      = (.error (.ProjectNotFound "z"), sampleStore) := by
  refine ⟨by decide, ?_⟩
  exact (not_found_closure "z" "2024-01-02T00:00:00+00:00" "txt" sampleProjectB
    sampleStore (by decide)).2.2.1

/-- C2: updating a present identifier stores the caller-supplied record
with its update timestamp forcibly replaced by the clock reading of the
call; a subsequent get returns that record, every field except the update
timestamp equals the caller's, and the stored timestamp is at least both
the clock reading and the previously stored update timestamp (given that
the clock never runs backwards). -/
theorem update_then_get (project_id now : String) (R old : Project)
    (projects : Store)
    (hold : Store.get? project_id projects = some old)
    (hclock : timeLe old.updated_at now) :
    ∃ stored : Project,
      update_project project_id R now projects
        = (.ok stored, Store.insert project_id stored projects) ∧
      get_project project_id (update_project project_id R now projects).2
        = .ok stored ∧
      stored.id = R.id ∧ stored.title = R.title ∧
      stored.description = R.description ∧
      stored.characters = R.characters ∧ stored.plot = R.plot ∧
      stored.synopsis = R.synopsis ∧ stored.chapters = R.chapters ∧
      stored.created_at = R.created_at ∧
      stored.updated_at = now ∧ timeLe now stored.updated_at ∧
      timeLe old.updated_at stored.updated_at := by
  refine ⟨{ R with updated_at := now }, ?_, ?_, rfl, rfl, rfl, rfl, rfl, rfl,
    rfl, rfl, rfl, le_refl _, hclock⟩
  · simp [update_project, Store.contains, hold]
  · simp [update_project, Store.contains, hold, get_project, Store.get?_insert]

theorem update_then_get_witness :
    Store.get? "a" sampleStore = some sampleProjectA ∧
    timeLe sampleProjectA.updated_at "2024-01-02T00:00:00+00:00" ∧
    ∃ stored : Project,
      update_project "a" sampleProjectB "2024-01-02T00:00:00+00:00" sampleStore
        = (.ok stored, Store.insert "a" stored sampleStore) ∧
      get_project "a"
          (update_project "a" sampleProjectB "2024-01-02T00:00:00+00:00" sampleStore).2
        = .ok stored ∧
      stored.id = sampleProjectB.id ∧ stored.title = sampleProjectB.title ∧
      stored.description = sampleProjectB.description ∧
      stored.characters = sampleProjectB.characters ∧
      stored.plot = sampleProjectB.plot ∧
      stored.synopsis = sampleProjectB.synopsis ∧
      stored.chapters = sampleProjectB.chapters ∧
      stored.created_at = sampleProjectB.created_at ∧
      stored.updated_at = "2024-01-02T00:00:00+00:00" ∧
      timeLe "2024-01-02T00:00:00+00:00" stored.updated_at ∧
      timeLe sampleProjectA.updated_at stored.updated_at := by
  refine ⟨by decide, by decide, ?_⟩
  exact update_then_get "a" "2024-01-02T00:00:00+00:00" sampleProjectB
    sampleProjectA sampleStore (by decide) (by decide)

/-- C5: creation builds the project from the supplied title and
description with empty characters and chapters, no plot, no synopsis, both
timestamps equal to the clock reading, inserts it under the freshly
allocated identifier, and returns exactly the stored record. -/
theorem create_project_spec (title : String) (description : Option String)
    (project_id now : String) (projects : Store)
    (hfresh : Store.get? project_id projects = none) :
    ∃ p : Project,
      create_project title description project_id now projects
        = (.ok p, Store.insert project_id p projects) ∧
      p.id = project_id ∧ p.title = title ∧ p.description = description ∧
      p.characters = [] ∧ p.plot = none ∧ p.synopsis = none ∧
      p.chapters = [] ∧ p.created_at = now ∧ p.updated_at = now ∧
      Store.get? project_id
          (create_project title description project_id now projects).2
        = some p := by
  refine ⟨_, rfl, rfl, rfl, rfl, rfl, rfl, rfl, rfl, rfl, ?_⟩
  simp [create_project, Store.get?_insert]

theorem create_project_spec_witness :
    Store.get? "n" sampleStore = none ∧
    ∃ p : Project,
      create_project "novel" (some "desc") "n" "2024-03-01T00:00:00+00:00" sampleStore
        = (.ok p, Store.insert "n" p sampleStore) ∧
      p.id = "n" ∧ p.title = "novel" ∧ p.description = some "desc" ∧
      p.characters = [] ∧ p.plot = none ∧ p.synopsis = none ∧
      p.chapters = [] ∧ p.created_at = "2024-03-01T00:00:00+00:00" ∧
      p.updated_at = "2024-03-01T00:00:00+00:00" ∧
      Store.get? "n"
          (create_project "novel" (some "desc") "n" "2024-03-01T00:00:00+00:00" sampleStore).2
        = some p := by
  refine ⟨by decide, ?_⟩
  exact create_project_spec "novel" (some "desc") "n" "2024-03-01T00:00:00+00:00"
    sampleStore (by decide)

/-- C8: exporting a stored project with a format outside txt/json fails
with the unsupported-format `FileError` and does not mutate the state. -/
theorem export_unsupported_format (project_id fmt : String) (p : Project)
    (projects : Store)
    (hp : Store.get? project_id projects = some p)
    (h1 : fmt ≠ "txt") (h2 : fmt ≠ "json") :
    export_project project_id fmt projects
      = .error (.FileError "サポートされていないエクスポート形式") ∧
    ∀ st : AppState, execCommand (.exportCmd project_id fmt) st = st := by
  refine ⟨?_, fun st => rfl⟩
  simp [export_project, hp, h1, h2]

theorem export_unsupported_format_witness :
    Store.get? "a" sampleStore = some sampleProjectA ∧
    ("xml" : String) ≠ "txt" ∧ ("xml" : String) ≠ "json" ∧
    export_project "a" "xml" sampleStore
      = .error (.FileError "サポートされていないエクスポート形式") := by
  refine ⟨by decide, by decide, by decide, ?_⟩
  exact (export_unsupported_format "a" "xml" sampleProjectA sampleStore
    (by decide) (by decide) (by decide)).1

/-- C9 counterexample: the tagging is not distinct per provider — the
`openai` and `claude` arms return the very same string for the same
prompt. -/
theorem generate_tagging_not_distinct :
    generate_ai_content "p" ⟨"openai", none, "m", 0.5, 100⟩
      = generate_ai_content "p" ⟨"claude", none, "m", 0.5, 100⟩ ∧
    generate_ai_content "p" ⟨"openai", none, "m", 0.5, 100⟩
      = .ok "AI生成コンテンツ: p" := by
  exact ⟨rfl, rfl⟩

/-- C9 as amended: generation dispatches purely on `config.provider`;
`openai` and `claude` both return the same placeholder embedding the
prompt, `local` returns a differently tagged placeholder, no other field
of the configuration affects the result, and every other provider fails
with the AI-configuration error. -/
theorem generate_dispatch (prompt : String) (config : AIConfig) :
    (config.provider = "openai" →
      generate_ai_content prompt config = .ok ("AI生成コンテンツ: " ++ prompt)) ∧
    (config.provider = "claude" →
      generate_ai_content prompt config = .ok ("AI生成コンテンツ: " ++ prompt)) ∧
    (config.provider = "local" →
      generate_ai_content prompt config = .ok ("ローカルAI生成コンテンツ: " ++ prompt)) ∧
    (config.provider ≠ "openai" → config.provider ≠ "claude" →
      config.provider ≠ "local" →
      generate_ai_content prompt config
        = .error (.AIConfigError "サポートされていないAIプロバイダー")) := by
  refine ⟨fun h => ?_, fun h => ?_, fun h => ?_, fun h1 h2 h3 => ?_⟩
  · simp [generate_ai_content, h]
  · simp [generate_ai_content, h]
  · simp [generate_ai_content, h]
  · simp [generate_ai_content, h1, h2, h3]

theorem generate_dispatch_witness :
    ("mistral" : String) ≠ "openai" ∧ ("mistral" : String) ≠ "claude" ∧
    ("mistral" : String) ≠ "local" ∧
    generate_ai_content "p" ⟨"mistral", none, "m", 0.5, 100⟩
      = .error (.AIConfigError "サポートされていないAIプロバイダー") := by
  refine ⟨by decide, by decide, by decide, ?_⟩
  exact (generate_dispatch "p" ⟨"mistral", none, "m", 0.5, 100⟩).2.2.2
    (by decide) (by decide) (by decide)

/-- C4: the proxy returns the body text of any received response
regardless of status; a send timeout and a connection failure yield the
two fixed messages; any other send failure and any body-read failure
yield generic messages wrapping the cause. -/
theorem proxy_normalization (endpoint body : String)
    (headers : List (String × String)) (status : Nat) (text e : String) :
    proxy_local_llm_request endpoint body headers (.response status (.ok text))
      = .ok text ∧
    proxy_local_llm_request endpoint body headers (.sendFailure .timeout)
      = .error "ローカルLLMサーバーへの接続がタイムアウトしました。サーバーが起動しているか確認してください。" ∧
    proxy_local_llm_request endpoint body headers (.sendFailure .connect)
      = .error "ローカルLLMサーバーに接続できません。サーバーが起動しているか、エンドポイントが正しいか確認してください。" ∧
    proxy_local_llm_request endpoint body headers (.sendFailure (.other e))
      = .error ("リクエスト送信エラー: " ++ e) ∧
    proxy_local_llm_request endpoint body headers (.response status (.error e))
      = .error ("レスポンス読み取りエラー: " ++ e) := by
  exact ⟨rfl, rfl, rfl, rfl, rfl⟩

theorem execCommand_current_project (c : Command) (st : AppState) :
    (execCommand c st).current_project = st.current_project := by
  cases c <;> rfl

theorem execList_current_project (cs : List Command) :
    ∀ st : AppState, (execList cs st).current_project = st.current_project := by
  induction cs with
  | nil => intro st; rfl
  | cons c rest ih =>
    intro st
    show (execList rest (execCommand c st)).current_project = st.current_project
    rw [ih (execCommand c st), execCommand_current_project]

/-- C10: the `current_project` slot of the application state is never read
or written by any of the eight registered commands — after any sequence of
invocations it still holds its initial value `none`. -/
theorem current_project_never_touched (cs : List Command) :
    (execList cs AppState.default).current_project = none := by
  rw [execList_current_project cs AppState.default]
  rfl

/-- C3 counterexample: the identifier field is mutable.  Create a project
under identifier `"a"`, then update key `"a"` with a caller record whose
identifier field is `"b"`: the record now stored under key `"a"` carries
identifier `"b"`, no longer the value `"a"` assigned at creation. -/
theorem id_immutable_counterexample :
    (Store.get? "a"
        (create_project "alpha" none "a" "2024-01-01T00:00:00+00:00" []).2).map Project.id
      = some "a" ∧
    (Store.get? "a"
        (update_project "a" sampleProjectB "2024-01-02T00:00:00+00:00"
          (create_project "alpha" none "a" "2024-01-01T00:00:00+00:00" []).2).2).map Project.id
      = some "b" ∧
    ("b" : String) ≠ "a" := by
  refine ⟨by decide, by decide, by decide⟩

theorem delete_project_projects (project_id : String) (projects : Store) :
    (delete_project project_id projects).2 = Store.erase project_id projects := by
  simp only [delete_project]
  split <;> rfl

theorem execCommand_wellKeyed (c : Command) (st : AppState)
    (hw : WellKeyed st.projects) (hc : Command.idConsistent c) :
    WellKeyed (execCommand c st).projects := by
  cases c with
  | create title description project_id now =>
    intro k p hk
    simp only [execCommand, create_project] at hk
    rw [Store.get?_insert] at hk
    by_cases h : project_id = k
    · simp only [h, if_true] at hk
      cases hk
      rfl
    · simp only [h, if_false] at hk
      exact hw k p hk
  | update project_id project now =>
    intro k p hk
    simp only [execCommand, update_project] at hk
    by_cases hcont : Store.contains project_id st.projects = true
    · simp only [hcont, Bool.not_true, Bool.false_eq_true, if_false] at hk
      rw [Store.get?_insert] at hk
      by_cases h : project_id = k
      · simp only [h, if_true] at hk
        cases hk
        exact hc.trans h
      · simp only [h, if_false] at hk
        exact hw k p hk
    · simp only [Bool.not_eq_true] at hcont
      simp only [hcont, Bool.not_false, if_true] at hk
      exact hw k p hk
  | delete project_id =>
    intro k p hk
    simp only [execCommand, delete_project_projects] at hk
    rw [Store.get?_erase] at hk
    by_cases h : project_id = k
    · simp [h] at hk
    · simp only [h, if_false] at hk
      exact hw k p hk
  | listProjects => exact hw
  | get project_id => exact hw
  | generate prompt config => exact hw
  | exportCmd project_id fmt => exact hw
  | proxy endpoint body headers outcome => exact hw

theorem execList_wellKeyed (cs : List Command) :
    ∀ st : AppState, WellKeyed st.projects →
      (∀ c ∈ cs, Command.idConsistent c) →
      WellKeyed (execList cs st).projects := by
  induction cs with
  | nil => intro st hw _; exact hw
  | cons c rest ih =>
    intro st hw hall
    show WellKeyed (execList rest (execCommand c st)).projects
    exact ih (execCommand c st)
      (execCommand_wellKeyed c st hw (hall c (by simp)))
      (fun c' hc' => hall c' (by simp [hc']))

/-- C3 as amended: the store key a record lives under never changes, but
`update_project` stores the caller-supplied record wholesale, identifier
field included.  Hence the identifier stored under a key equals the value
assigned at creation throughout every command sequence whose update
invocations supply records carrying the identifier they are stored under —
and the counterexample shows the restriction is necessary. -/
theorem id_immutable_of_consistent_updates (cs : List Command)
    (h : ∀ c ∈ cs, Command.idConsistent c) :
    WellKeyed (execList cs AppState.default).projects := by
  refine execList_wellKeyed cs AppState.default ?_ h
  intro k p hk
  simp [AppState.default, Store.get?] at hk

theorem id_immutable_of_consistent_updates_witness :
    (∀ c ∈ ([.create "alpha" none "a" "2024-01-01T00:00:00+00:00",
             .update "a" sampleProjectA "2024-01-02T00:00:00+00:00"] : List Command),
      Command.idConsistent c) ∧
    WellKeyed (execList
      [.create "alpha" none "a" "2024-01-01T00:00:00+00:00",
       .update "a" sampleProjectA "2024-01-02T00:00:00+00:00"]
      AppState.default).projects := by
  have hall : ∀ c ∈ ([.create "alpha" none "a" "2024-01-01T00:00:00+00:00",
             .update "a" sampleProjectA "2024-01-02T00:00:00+00:00"] : List Command),
      Command.idConsistent c := by
    intro c hc
    simp only [List.mem_cons, List.not_mem_nil, or_false] at hc
    rcases hc with rfl | rfl
    · trivial
    · show sampleProjectA.id = "a"
      rfl
  exact ⟨hall, id_immutable_of_consistent_updates _ hall⟩

theorem isInfix_prepend (l m pre : List Char) (h : List.IsInfix l m) :
    List.IsInfix l (pre ++ m) := by
  obtain ⟨s, t, rfl⟩ := h
  exact ⟨pre ++ s, t, by simp [List.append_assoc]⟩

theorem chapter_parts_infix (c : Chapter) (chs : List Chapter) (hc : c ∈ chs) :
    List.IsInfix c.title.data (concatStrings (chs.map chapterTxt)).data ∧
    List.IsInfix c.content.data (concatStrings (chs.map chapterTxt)).data := by
  induction chs with
  | nil => cases hc
  | cons c0 rest ih =>
    rcases List.mem_cons.mp hc with rfl | hmem
    · constructor
      · refine ⟨"\n## ".data,
          "\n".data ++ c.content.data ++ (concatStrings (rest.map chapterTxt)).data, ?_⟩
        simp [concatStrings, chapterTxt, String.data_append, List.append_assoc]
      · refine ⟨"\n## ".data ++ c.title.data ++ "\n".data,
          (concatStrings (rest.map chapterTxt)).data, ?_⟩
        simp [concatStrings, chapterTxt, String.data_append, List.append_assoc]
    · have hrec := ih hmem
      have hdata : (concatStrings ((c0 :: rest).map chapterTxt)).data
          = (chapterTxt c0).data ++ (concatStrings (rest.map chapterTxt)).data := by
        simp [concatStrings, String.data_append]
      rw [hdata]
      exact ⟨isInfix_prepend _ _ _ hrec.1, isInfix_prepend _ _ _ hrec.2⟩

/-- C6: exporting a stored project as `txt` renders the title line, the
optional description line, then every chapter — in storage sequence order —
as a heading line followed by its raw content; the output contains the
project title and, for each chapter, both its title and its full content as
contiguous substrings. -/
theorem export_txt_contents (project_id : String) (p : Project)
    (projects : Store) (h : Store.get? project_id projects = some p) :
    export_project project_id "txt" projects = .ok (projectTxt p) ∧
    ContainsStr (projectTxt p) p.title ∧
    ∀ c ∈ p.chapters,
      ContainsStr (projectTxt p) c.title ∧ ContainsStr (projectTxt p) c.content := by
  have hdata : (projectTxt p).data
      = "タイトル: ".data ++ p.title.data ++ "\n".data
        ++ (match p.description with
            | some desc => "説明: " ++ desc ++ "\n"
            | none => "").data
        ++ (concatStrings (p.chapters.map chapterTxt)).data := by
    simp [projectTxt, String.data_append, List.append_assoc]
  refine ⟨?_, ?_, ?_⟩
  · simp [export_project, h]
  · refine ⟨"タイトル: ".data,
      "\n".data
        ++ (match p.description with
            | some desc => "説明: " ++ desc ++ "\n"
            | none => "").data
        ++ (concatStrings (p.chapters.map chapterTxt)).data, ?_⟩
    rw [hdata]
    simp [List.append_assoc]
  · intro c hc
    have hch := chapter_parts_infix c p.chapters hc
    have hpre : (projectTxt p).data
        = ("タイトル: ".data ++ p.title.data ++ "\n".data
            ++ (match p.description with
                | some desc => "説明: " ++ desc ++ "\n"
                | none => "").data)
          ++ (concatStrings (p.chapters.map chapterTxt)).data := by
      rw [hdata]
    unfold ContainsStr
    rw [hpre]
    exact ⟨isInfix_prepend _ _ _ hch.1, isInfix_prepend _ _ _ hch.2⟩

theorem export_txt_contents_witness :
    Store.get? "a" sampleStore = some sampleProjectA ∧
    export_project "a" "txt" sampleStore = .ok (projectTxt sampleProjectA) ∧
    ContainsStr (projectTxt sampleProjectA) sampleProjectA.title := by
  refine ⟨by decide, ?_, ?_⟩
  · exact (export_txt_contents "a" sampleProjectA sampleStore (by decide)).1
  · exact (export_txt_contents "a" sampleProjectA sampleStore (by decide)).2.1

theorem decodeList_map {α : Type} (f : Json → Except String α) (g : α → Json)
    (l : List α) (h : ∀ x ∈ l, f (g x) = .ok x) :
    decodeList f (l.map g) = .ok l := by
  induction l with
  | nil => rfl
  | cons x xs ih =>
    simp only [List.map_cons, decodeList, h x (by simp), bind, Except.bind,
      ih (fun y hy => h y (by simp [hy]))]

theorem plotFromJson_toJson (p : Plot) : Plot.fromJson? (Plot.toJson p) = .ok p := by
  have hstep : Plot.fromJson? (Plot.toJson p)
      = Except.bind (decodeList Act.fromJson? (p.acts.map Act.toJson))
          (fun acts =>
            .ok ⟨p.id, p.title, p.genre, p.theme, p.setting, p.conflict, p.resolution, acts⟩) := by
    rfl
  rw [hstep, decodeList_map Act.fromJson? Act.toJson p.acts (fun a _ => rfl)]
  rfl

theorem asOptStr_optStrToJson (o : Option String) :
    Json.asOptStr (optStrToJson o) = .ok o := by
  cases o <;> rfl

theorem optPlotFromJson_optPlotToJson (op : Option Plot) :
    optPlotFromJson? (optPlotToJson op) = .ok op := by
  cases op with
  | none => rfl
  | some pl =>
    have hstep : optPlotFromJson? (optPlotToJson (some pl))
        = Except.bind (Plot.fromJson? (Plot.toJson pl)) (fun v => .ok (some v)) := by
      rfl
    rw [hstep, plotFromJson_toJson]
    rfl

theorem projectFromJson_toJson (p : Project) :
    Project.fromJson? (Project.toJson p) = .ok p := by
  have hstep : Project.fromJson? (Project.toJson p)
      = Except.bind (Json.asOptStr (optStrToJson p.description)) (fun description =>
          Except.bind (decodeList Character.fromJson? (p.characters.map Character.toJson))
            (fun characters =>
              Except.bind (optPlotFromJson? (optPlotToJson p.plot)) (fun plot =>
                Except.bind (Json.asOptStr (optStrToJson p.synopsis)) (fun synopsis =>
                  Except.bind (decodeList Chapter.fromJson? (p.chapters.map Chapter.toJson))
                    (fun chapters =>
                      .ok ⟨p.id, p.title, description, characters, plot, synopsis,
                        chapters, p.created_at, p.updated_at⟩))))) := by
    rfl
  rw [hstep]
  simp only [asOptStr_optStrToJson, optPlotFromJson_optPlotToJson]
  rw [decodeList_map Character.fromJson? Character.toJson p.characters
    (fun c _ => by
      cases c with
      | mk id name age description role personality background => cases age <;> rfl)]
  rw [decodeList_map Chapter.fromJson? Chapter.toJson p.chapters (fun c _ => rfl)]
  rfl

theorem hexVal_hexDigitOf (m : Nat) (h : m < 16) : hexVal (hexDigitOf m) = some m := by
  interval_cases m <;> rfl

theorem toNat_digitCharOf (d : Nat) (h : d < 10) : (digitCharOf d).toNat = 48 + d := by
  interval_cases d <;> rfl

theorem isDigit_digitCharOf (d : Nat) (h : d < 10) : (digitCharOf d).isDigit = true := by
  interval_cases d <;> rfl

theorem natChars_digits (n : Nat) : ∀ c ∈ natChars n, c.isDigit = true := by
  intro c hc
  unfold natChars at hc
  by_cases h : n = 0
  · simp [h] at hc
    subst hc
    rfl
  · simp only [h, if_false, List.mem_reverse, List.mem_map] at hc
    obtain ⟨d, hd, rfl⟩ := hc
    exact isDigit_digitCharOf d (Nat.digits_lt_base (by norm_num) hd)

theorem natChars_ne_nil (n : Nat) : natChars n ≠ [] := by
  unfold natChars
  by_cases h : n = 0
  · simp [h]
  · simp only [h, if_false, ne_eq, List.reverse_eq_nil_iff, List.map_eq_nil_iff]
    exact Nat.digits_ne_nil_iff_ne_zero.mpr h

theorem foldr_digitCharOf (ds : List Nat) (h : ∀ d ∈ ds, d < 10) :
    List.foldr (fun c a => 10 * a + (c.toNat - 48)) 0 (ds.map digitCharOf)
      = Nat.ofDigits 10 ds := by
  induction ds with
  | nil => rfl
  | cons d rest ih =>
    simp only [List.map_cons, List.foldr_cons, ih (fun x hx => h x (by simp [hx])),
      Nat.ofDigits_cons]
    rw [toNat_digitCharOf d (h d (by simp))]
    omega

theorem digitsVal_natChars (n : Nat) : digitsVal (natChars n) = n := by
  by_cases h : n = 0
  · subst h; rfl
  · unfold digitsVal natChars
    simp only [h, if_false]
    rw [List.foldl_reverse]
    have := foldr_digitCharOf (Nat.digits 10 n)
      (fun d hd => Nat.digits_lt_base (by norm_num) hd)
    simp only [this]
    exact Nat.ofDigits_digits 10 n

theorem takeWhile_all_append (p : Char → Bool) (l r : List Char)
    (h : ∀ x ∈ l, p x = true) :
    (l ++ r).takeWhile p = l ++ r.takeWhile p := by
  induction l with
  | nil => rfl
  | cons c t ih =>
    simp only [List.cons_append, List.takeWhile_cons, h c (by simp), if_true]
    rw [ih (fun x hx => h x (by simp [hx]))]

theorem dropWhile_all_append (p : Char → Bool) (l r : List Char)
    (h : ∀ x ∈ l, p x = true) :
    (l ++ r).dropWhile p = r.dropWhile p := by
  induction l with
  | nil => rfl
  | cons c t ih =>
    simp only [List.cons_append, List.dropWhile_cons, h c (by simp), if_true]
    exact ih (fun x hx => h x (by simp [hx]))

theorem takeWhile_numBoundary (rest : List Char) (h : numBoundary rest) :
    rest.takeWhile Char.isDigit = [] := by
  cases rest with
  | nil => rfl
  | cons c t =>
    simp only [numBoundary] at h
    simp [List.takeWhile_cons, h]

theorem dropWhile_numBoundary (rest : List Char) (h : numBoundary rest) :
    rest.dropWhile Char.isDigit = rest := by
  cases rest with
  | nil => rfl
  | cons c t =>
    simp only [numBoundary] at h
    simp [List.dropWhile_cons, h]

theorem parseNat_natChars (n : Nat) (rest : List Char) (h : numBoundary rest) :
    parseNat (natChars n ++ rest) = some (n, rest) := by
  unfold parseNat
  rw [takeWhile_all_append _ _ _ (natChars_digits n), takeWhile_numBoundary rest h,
    dropWhile_all_append _ _ _ (natChars_digits n), dropWhile_numBoundary rest h]
  simp [natChars_ne_nil n, digitsVal_natChars n]

theorem parseStrBody_escapeList (l : List Char) :
    ∀ (acc rest : List Char),
      parseStrBody (escapeList l ++ '"' :: rest) acc
        = some (⟨acc.reverse ++ l⟩, rest) := by
  induction l with
  | nil =>
    intro acc rest
    show parseStrBody ('"' :: rest) acc = _
    rw [parseStrBody.eq_def]
    simp
  | cons c t ih =>
    intro acc rest
    simp only [escapeList, List.append_assoc]
    unfold escapeChar
    by_cases h1 : c = '"'
    · subst h1
      simp only [if_true]
      show parseStrBody ('\\' :: '"' :: (escapeList t ++ '"' :: rest)) acc = _
      rw [parseStrBody.eq_def]
      simp [ih ('"' :: acc) rest]
    · by_cases h2 : c = '\\'
      · subst h2
        simp only [h1, if_false, if_true]
        show parseStrBody ('\\' :: '\\' :: (escapeList t ++ '"' :: rest)) acc = _
        rw [parseStrBody.eq_def]
        simp [ih ('\\' :: acc) rest]
      · by_cases h3 : c.toNat < 32
        · simp only [h1, h2, h3, if_false, if_true]
          show parseStrBody
              ('\\' :: 'u' :: '0' :: '0' :: hexDigitOf (c.toNat / 16)
                :: hexDigitOf (c.toNat % 16) :: (escapeList t ++ '"' :: rest)) acc = _
          rw [parseStrBody.eq_def]
          simp only [reduceIte]
          rw [show hexVal '0' = some 0 from rfl,
            hexVal_hexDigitOf _ (by omega : c.toNat / 16 < 16),
            hexVal_hexDigitOf _ (by omega : c.toNat % 16 < 16)]
          simp only []
          rw [show 4096 * 0 + 256 * 0 + 16 * (c.toNat / 16) + c.toNat % 16 = c.toNat by omega,
            Char.ofNat_toNat c, ih (c :: acc) rest]
          simp
        · simp only [h1, h2, h3, if_false]
          show parseStrBody (c :: (escapeList t ++ '"' :: rest)) acc = _
          rw [parseStrBody.eq_def]
          simp only [h1, h2, if_false]
          rw [ih (c :: acc) rest]
          simp

theorem digit_ne_literals (c : Char) (h : c.isDigit = true) :
    c ≠ 'n' ∧ c ≠ '"' ∧ c ≠ '[' ∧ c ≠ '\x7b' ∧ c ≠ '-' := by
  refine ⟨?_, ?_, ?_, ?_, ?_⟩ <;> rintro rfl <;> exact absurd h (by decide)

theorem renderJsonL_head (v : Json) :
    ∃ c t, renderJsonL v = c :: t ∧
      (c = 'n' ∨ c = '"' ∨ c = '[' ∨ c = '\x7b' ∨ c = '-' ∨ c.isDigit = true) := by
  cases v with
  | null => exact ⟨'n', ['u', 'l', 'l'], by simp [renderJsonL], .inl rfl⟩
  | num n =>
    by_cases hneg : n < 0
    · exact ⟨'-', natChars n.natAbs, by simp [renderJsonL, intChars, hneg],
        .inr (.inr (.inr (.inr (.inl rfl))))⟩
    · obtain ⟨c, t, hct⟩ := List.exists_cons_of_ne_nil (natChars_ne_nil n.toNat)
      refine ⟨c, t, by simp [renderJsonL, intChars, hneg, hct], ?_⟩
      exact .inr (.inr (.inr (.inr (.inr
        (natChars_digits n.toNat c (hct ▸ List.mem_cons_self c t))))))
  | str s =>
    exact ⟨'"', escapeList s.data ++ ['"'], by simp [renderJsonL, strLitChars],
      .inr (.inl rfl)⟩
  | arr elems =>
    exact ⟨'[', renderElems elems ++ [']'], by simp [renderJsonL], .inr (.inr (.inl rfl))⟩
  | obj fields =>
    exact ⟨'\x7b', renderFields fields ++ ['\x7d'], by simp [renderJsonL],
      .inr (.inr (.inr (.inl rfl)))⟩

theorem head_ne_close (c : Char)
    (h : c = 'n' ∨ c = '"' ∨ c = '[' ∨ c = '\x7b' ∨ c = '-' ∨ c.isDigit = true) :
    c ≠ ']' ∧ c ≠ '\x7d' := by
  constructor <;> rintro rfl <;>
    rcases h with h | h | h | h | h | h <;> exact absurd h (by decide)

theorem sizeJ_pos (v : Json) : 1 ≤ sizeJ v := by
  cases v <;> simp [sizeJ]

theorem sizeE_pos (xs : List Json) (h : xs ≠ []) : 1 ≤ sizeE xs := by
  cases xs with
  | nil => exact absurd rfl h
  | cons x t => simp [sizeE]; omega

theorem sizeF_pos (fs : List (String × Json)) (h : fs ≠ []) : 1 ≤ sizeF fs := by
  cases fs with
  | nil => exact absurd rfl h
  | cons f t => simp [sizeF]; omega

theorem renderElems_cons (x : Json) (xs : List Json) :
    ∃ t2, renderElems (x :: xs) = renderJsonL x ++ t2 := by
  cases xs with
  | nil => exact ⟨[], by simp [renderElems]⟩
  | cons y ys => exact ⟨',' :: renderElems (y :: ys), by simp [renderElems]⟩

theorem renderFields_cons (f : String × Json) (fs : List (String × Json)) :
    ∃ t2, renderFields (f :: fs) = strLitChars f.1 ++ ':' :: renderJsonL f.2 ++ t2 := by
  cases fs with
  | nil => exact ⟨[], by simp [renderFields]⟩
  | cons g gs => exact ⟨',' :: renderFields (g :: gs), by simp [renderFields, List.append_assoc]⟩

set_option maxHeartbeats 1000000

theorem parse_render_all (fuel : Nat) :
    (∀ v rest, sizeJ v ≤ fuel → numBoundary rest →
      parseJsonF fuel (renderJsonL v ++ rest) = some (v, rest)) ∧
    (∀ xs rest, sizeE xs ≤ fuel → xs ≠ [] →
      parseElemsF fuel (renderElems xs ++ ']' :: rest) = some (xs, rest)) ∧
    (∀ fs rest, sizeF fs ≤ fuel → fs ≠ [] →
      parseFieldsF fuel (renderFields fs ++ '\x7d' :: rest) = some (fs, rest)) := by
  induction fuel with
  | zero =>
    refine ⟨fun v rest hs _ => absurd hs (by have := sizeJ_pos v; omega),
            fun xs rest hs hne => absurd hs (by have := sizeE_pos xs hne; omega),
            fun fs rest hs hne => absurd hs (by have := sizeF_pos fs hne; omega)⟩
  | succ fuel ih =>
    obtain ⟨ihV, ihE, ihF⟩ := ih
    refine ⟨?_, ?_, ?_⟩
    · intro v rest hs hb
      show parseValAux (parseElemsF fuel) (parseFieldsF fuel) (renderJsonL v ++ rest)
        = some (v, rest)
      cases v with
      | null =>
        rw [show renderJsonL .null = ['n', 'u', 'l', 'l'] from by simp [renderJsonL]]
        simp [parseValAux]
      | str s =>
        rw [show renderJsonL (.str s) = '"' :: (escapeList s.data ++ ['"'])
              from by simp [renderJsonL, strLitChars]]
        have hS := parseStrBody_escapeList s.data [] rest
        simp only [List.cons_append, List.append_assoc, List.singleton_append]
        simp only [parseValAux, Char.reduceEq, reduceIte, hS, List.reverse_nil,
          List.nil_append]
      | num n =>
        rw [show renderJsonL (.num n) = intChars n from by simp [renderJsonL]]
        unfold intChars
        by_cases hneg : n < 0
        · have hpn := parseNat_natChars n.natAbs rest hb
          simp only [hneg, if_true, List.cons_append]
          simp only [parseValAux, Char.reduceEq, reduceIte, hpn]
          rw [show (-(n.natAbs : Int)) = n from by omega]
        · obtain ⟨c, t, hct⟩ := List.exists_cons_of_ne_nil (natChars_ne_nil n.toNat)
          have hd : c.isDigit = true := natChars_digits n.toNat c (hct ▸ List.mem_cons_self c t)
          have hne := digit_ne_literals c hd
          have hpn := parseNat_natChars n.toNat rest hb
          rw [hct] at hpn
          simp only [List.cons_append] at hpn
          simp only [hneg, if_false, hct, List.cons_append]
          simp only [parseValAux, hne.1, hne.2.1, hne.2.2.1, hne.2.2.2.1, hne.2.2.2.2,
            if_false, hd, if_true, hpn]
          rw [show ((n.toNat : Int)) = n from by omega]
      | arr elems =>
        rw [show renderJsonL (.arr elems) = '[' :: (renderElems elems ++ [']'])
              from by simp [renderJsonL]]
        cases elems with
        | nil =>
          rw [show renderElems ([] : List Json) = [] from by simp [renderElems]]
          simp [parseValAux]
        | cons x xs =>
          obtain ⟨c, t, hct, hcopt⟩ := renderJsonL_head x
          obtain ⟨t2, ht2⟩ := renderElems_cons x xs
          have hcne := head_ne_close c hcopt
          have hE := ihE (x :: xs) rest (by simp [sizeJ] at hs; omega) (by simp)
          rw [ht2, hct] at hE
          simp only [List.cons_append, List.append_assoc, List.singleton_append,
            List.nil_append] at hE
          rw [ht2, hct]
          simp only [List.cons_append, List.append_assoc, List.singleton_append,
            List.nil_append]
          simp only [parseValAux, Char.reduceEq, reduceIte, if_neg hcne.1, hE]
      | obj fields =>
        rw [show renderJsonL (.obj fields) = '\x7b' :: (renderFields fields ++ ['\x7d'])
              from by simp [renderJsonL]]
        cases fields with
        | nil =>
          rw [show renderFields ([] : List (String × Json)) = [] from by simp [renderFields]]
          simp [parseValAux]
        | cons f fs =>
          obtain ⟨t2, ht2⟩ := renderFields_cons f fs
          have hF := ihF (f :: fs) rest (by simp [sizeJ] at hs; omega) (by simp)
          rw [ht2] at hF
          simp only [strLitChars, List.cons_append, List.append_assoc, List.singleton_append,
            List.nil_append] at hF
          rw [ht2]
          simp only [strLitChars, List.cons_append, List.append_assoc, List.singleton_append,
            List.nil_append]
          simp only [parseValAux, Char.reduceEq, reduceIte, hF]
    · intro xs rest hs hne
      show parseElemsAux (parseJsonF fuel) (parseElemsF fuel)
          (renderElems xs ++ ']' :: rest) = some (xs, rest)
      cases xs with
      | nil => exact absurd rfl hne
      | cons x xs2 =>
        cases xs2 with
        | nil =>
          have hV := ihV x (']' :: rest) (by simp [sizeE] at hs; omega) (by simp [numBoundary])
          rw [show renderElems [x] = renderJsonL x from by simp [renderElems]]
          simp only [parseElemsAux, hV]
        | cons y ys =>
          have hV := ihV x (',' :: (renderElems (y :: ys) ++ ']' :: rest))
            (by simp only [sizeE] at hs; omega) (by simp [numBoundary])
          have hE := ihE (y :: ys) rest
            (by simp only [sizeE] at hs ⊢; omega) (by simp)
          rw [show renderElems (x :: y :: ys) = renderJsonL x ++ ',' :: renderElems (y :: ys)
                from by simp [renderElems]]
          simp only [List.cons_append, List.append_assoc]
          simp only [parseElemsAux, hV, hE]
    · intro fs rest hs hne
      show parseFieldsAux (parseJsonF fuel) (parseFieldsF fuel)
          (renderFields fs ++ '\x7d' :: rest) = some (fs, rest)
      cases fs with
      | nil => exact absurd rfl hne
      | cons f fs2 =>
        obtain ⟨k, v⟩ := f
        cases fs2 with
        | nil =>
          have hS := parseStrBody_escapeList k.data []
            (':' :: (renderJsonL v ++ '\x7d' :: rest))
          have hV := ihV v ('\x7d' :: rest) (by simp [sizeF] at hs; omega)
            (by simp [numBoundary])
          rw [show renderFields [(k, v)] = strLitChars k ++ ':' :: renderJsonL v
                from by simp [renderFields]]
          simp only [strLitChars, List.cons_append, List.append_assoc, List.singleton_append]
          simp only [parseFieldsAux, hS, List.reverse_nil, List.nil_append, hV]
        | cons g gs =>
          have hS := parseStrBody_escapeList k.data []
            (':' :: (renderJsonL v ++ ',' :: (renderFields (g :: gs) ++ '\x7d' :: rest)))
          have hV := ihV v (',' :: (renderFields (g :: gs) ++ '\x7d' :: rest))
            (by simp only [sizeF] at hs; omega) (by simp [numBoundary])
          have hF := ihF (g :: gs) rest
            (by simp only [sizeF] at hs ⊢; omega) (by simp)
          rw [show renderFields ((k, v) :: g :: gs)
                = strLitChars k ++ ':' :: renderJsonL v ++ ',' :: renderFields (g :: gs)
                from by simp [renderFields]]
          simp only [strLitChars, List.cons_append, List.append_assoc, List.singleton_append]
          simp only [parseFieldsAux, hS, List.reverse_nil, List.nil_append, hV, hF]

theorem size_le_render_all (n : Nat) :
    (∀ v, sizeJ v ≤ n → sizeJ v ≤ (renderJsonL v).length) ∧
    (∀ xs, sizeE xs ≤ n → sizeE xs ≤ (renderElems xs).length + 1) ∧
    (∀ fs, sizeF fs ≤ n → sizeF fs ≤ (renderFields fs).length + 1) := by
  induction n with
  | zero =>
    refine ⟨fun v hs => absurd hs (by have := sizeJ_pos v; omega),
            fun xs hs => by omega,
            fun fs hs => by omega⟩
  | succ n ih =>
    obtain ⟨ihV, ihE, ihF⟩ := ih
    refine ⟨?_, ?_, ?_⟩
    · intro v hs
      cases v with
      | null => simp [sizeJ, renderJsonL]
      | num m =>
        have h1 : 1 ≤ (intChars m).length := by
          unfold intChars
          by_cases hneg : m < 0
          · simp [hneg]
          · simp only [hneg, if_false]
            exact List.length_pos.mpr (natChars_ne_nil m.toNat)
        simp only [sizeJ, renderJsonL]
        omega
      | str s => simp [sizeJ, renderJsonL, strLitChars]
      | arr elems =>
        have he := ihE elems (by simp only [sizeJ] at hs; omega)
        simp only [sizeJ, renderJsonL, List.length_cons, List.length_append,
          List.length_singleton]
        omega
      | obj fields =>
        have hf := ihF fields (by simp only [sizeJ] at hs; omega)
        simp only [sizeJ, renderJsonL, List.length_cons, List.length_append,
          List.length_singleton]
        omega
    · intro xs hs
      cases xs with
      | nil => simp [sizeE]
      | cons x xs2 =>
        cases xs2 with
        | nil =>
          have hv := ihV x (by simp only [sizeE] at hs; omega)
          rw [show renderElems [x] = renderJsonL x from by simp [renderElems]]
          simp only [sizeE]
          omega
        | cons y ys =>
          have hv := ihV x (by simp only [sizeE] at hs; omega)
          have he := ihE (y :: ys) (by simp only [sizeE] at hs ⊢; omega)
          rw [show renderElems (x :: y :: ys) = renderJsonL x ++ ',' :: renderElems (y :: ys)
                from by simp [renderElems]]
          simp only [sizeE, List.length_append, List.length_cons] at he ⊢
          omega
    · intro fs hs
      cases fs with
      | nil => simp [sizeF]
      | cons f fs2 =>
        cases fs2 with
        | nil =>
          have hv := ihV f.2 (by simp only [sizeF] at hs; omega)
          rw [show renderFields [f] = strLitChars f.1 ++ ':' :: renderJsonL f.2
                from by simp [renderFields]]
          simp only [sizeF, List.length_append, List.length_cons]
          omega
        | cons g gs =>
          have hv := ihV f.2 (by simp only [sizeF] at hs; omega)
          have hf := ihF (g :: gs) (by simp only [sizeF] at hs ⊢; omega)
          rw [show renderFields (f :: g :: gs)
                = strLitChars f.1 ++ ':' :: renderJsonL f.2 ++ ',' :: renderFields (g :: gs)
                from by simp [renderFields]]
          simp only [sizeF, List.length_append, List.length_cons] at hf ⊢
          omega

theorem parseJson_renderJson (v : Json) : parseJson (renderJson v) = .ok v := by
  have hsize := (size_le_render_all (sizeJ v)).1 v (le_refl _)
  have hp := (parse_render_all ((renderJson v).length + 1)).1 v []
    (by
      have hlen : (renderJson v).length = (renderJsonL v).length := rfl
      omega)
    trivial
  rw [List.append_nil] at hp
  have hp2 : parseJsonF ((renderJson v).length + 1) (renderJson v).data = some (v, []) := hp
  unfold parseJson
  rw [hp2]

/-- C7: exporting a stored project as `json` succeeds, and feeding the
exported text back through the full deserialization pipeline (JSON parse,
then record decode) recovers exactly the record `get_project` returns at
export time. -/
theorem export_json_roundtrip (project_id : String) (p : Project)
    (projects : Store) (h : Store.get? project_id projects = some p) :
    export_project project_id "json" projects
      = .ok (renderJson (Project.toJson p)) ∧
    parseProjectString (renderJson (Project.toJson p)) = .ok p ∧
    get_project project_id projects = .ok p := by
  refine ⟨by simp [export_project, h], ?_, by simp [get_project, h]⟩
  unfold parseProjectString
  rw [parseJson_renderJson]
  exact projectFromJson_toJson p

theorem export_json_roundtrip_witness :
    Store.get? "a" sampleStore = some sampleProjectA ∧
    parseProjectString (renderJson (Project.toJson sampleProjectA))
      = .ok sampleProjectA := by
  refine ⟨by decide, ?_⟩
  exact (export_json_roundtrip "a" sampleProjectA sampleStore (by decide)).2.1
